import Mathlib

set_option maxHeartbeats 1000000

/-!
Shallow embedding of the `Queue` circular-buffer memory
(`tensorforce/core/memories/queue.py`): the field store, the write cursor,
the boundary ring `terminal_indices` and the episode counter, together with
the four operations `enqueue`, `retrieve`, `predecessors` and `successors`.

Tensor buffers become Lean lists; `tf.gather` at a single index becomes a
total lookup `nth` with default `0` (the source would raise on an
out-of-range gather, which the theorems exclude by hypothesis);
`scatter_nd_update` becomes a sequential indexed write; `tf.math.mod` on
int64 with a positive divisor is Python floor-mod, i.e. `Int.emod` /
`Nat.mod`.  Assertion failures and Python exceptions are modelled by
`Option`/`Except` results.
-/

namespace Tensorforce

/-- Total list lookup with a default, modelling a single-index `tf.gather`. -/
def nth {α : Type} : List α → Nat → α → α
  | [], _, d => d
  | x :: _, 0, _ => x
  | _ :: xs, i + 1, d => nth xs i d

/-- Write one position of a buffer (out-of-range writes are dropped),
modelling a single-index tensor assignment. -/
def setN {α : Type} : List α → Nat → α → List α
  | [], _, _ => []
  | _ :: xs, 0, v => v :: xs
  | x :: xs, i + 1, v => x :: setN xs i v

/-- Sequential indexed write of `vals` at positions `idxs`, modelling
`scatter_nd_update`. -/
def scatter {α : Type} : List α → List Nat → List α → List α
  | buf, [], _ => buf
  | buf, _ :: _, [] => buf
  | buf, i :: is, v :: vs => scatter (setN buf i v) is vs

/-- The list `f 0, f 1, ..., f (n-1)`. -/
def tabulate {α : Type} : Nat → (Nat → α) → List α
  | 0, _ => []
  | n + 1, f => f 0 :: tabulate n (fun i => f (i + 1))

/-- Last element of a list with a default, modelling `tensor[-1]`. -/
def lastD {α : Type} : List α → α → α
  | [], d => d
  | [x], _ => x
  | _ :: x :: xs, d => lastD (x :: xs) d

/-- Number of nonzero entries, modelling `tf.math.count_nonzero`. -/
def countNz (l : List Int) : Nat := l.countP (fun x => x != 0)

/-- Exclusive prefix sum, modelling `tf.math.cumsum(.., exclusive=True)`. -/
def exCumsum (acc : Nat) : List Nat → List Nat
  | [] => []
  | x :: xs => acc :: exCumsum (acc + x) xs

/-- The slot just before `i` on the ring: `(i - 1) mod capacity`. -/
def prevSlot (cap i : Nat) : Nat := (i + cap - 1) % cap

/-- The queue state: one representative scalar column per buffer kind
(`terminal` with its special handling, `reward` standing for the ordinary
columns, which the source treats identically), the absolute write cursor
`buffer_index`, the boundary ring `terminal_indices` (length
`capacity + 1`) and the episode counter (int64 in the source: it passes
through `-1` transiently, so it is an `Int` here). -/
structure Queue where
  capacity : Nat
  terminal : List Int
  reward : List Int
  bufferIndex : Nat
  terminalIndices : List Nat
  episodeCount : Int
deriving DecidableEq, Repr

/-- The freshly constructed store: zero-filled buffers except that the
terminal column has its last slot preset to `1`, and the boundary ring's
single seed entry points at that last slot. -/
def initQueue (cap : Nat) : Queue :=
  { capacity := cap
    terminal := List.replicate (cap - 1) 0 ++ [1]
    reward := List.replicate cap 0
    bufferIndex := 0
    terminalIndices := (cap - 1) :: List.replicate cap 0
    episodeCount := 0 }

/-- The `n` consecutive physical slots starting at the cursor, mod capacity
(`overwritten_indices` in the source). -/
def targetSlots (bi n cap : Nat) : List Nat := tabulate n (fun k => (bi + k) % cap)

/-- Step 1 of `enqueue`: read the terminal flag at `(buffer_index - 1) mod
capacity` and rewrite it to `0` exactly when it equals the sentinel `3`. -/
def undoSentinel (q : Queue) : List Int :=
  let li := prevSlot q.capacity q.bufferIndex
  let lt := nth q.terminal li 0
  setN q.terminal li (if lt = 3 then 0 else lt)

/-- Number of target slots currently holding a nonzero terminal flag
(`num_episodes` in the source), gathered from the post-undo buffer. -/
def evictCount (q : Queue) (n : Nat) : Nat :=
  countNz ((targetSlots q.bufferIndex n q.capacity).map (fun i => nth (undoSentinel q) i 0))

/-- The input-validation assertions of `enqueue`: batch fits into capacity,
at most one nonzero terminal, any positive terminal is the last element
(reading `terminal[-1]` also requires the batch to be non-empty). -/
def batchChecks (cap : Nat) (t : List Int) : Bool :=
  decide (t.length ≤ cap) && decide (countNz t ≤ 1) && !t.isEmpty
    && ((t.any fun x => decide (0 < x)) == decide (0 < lastD t 0))

/-- The internal consistency assertions of `enqueue`, evaluated on the
post-undo buffer: every ring entry among the first `episode_count + 1`
points at a nonzero flag, and the total nonzero count equals
`episode_count + 1`. -/
def consistencyChecks (q : Queue) : Bool :=
  ((q.terminalIndices.take (q.episodeCount + 1).toNat).all
      (fun i => nth (undoSentinel q) i 0 != 0))
    && ((countNz (undoSentinel q) : Int) == q.episodeCount + 1)

/-- All guards of `enqueue` (validation, consistency, the episode-eviction
bound `num_episodes ≤ episode_count + 1`, and the shape agreement between
the columns of the batch). -/
def enqueueGuards (q : Queue) (t r : List Int) : Bool :=
  batchChecks q.capacity t && consistencyChecks q
    && decide ((evictCount q t.length : Int) ≤ q.episodeCount + 1)
    && (r.length == t.length)

/-- Slice-assign `ring[:keep] := ring[num:num+keep]`, dropping the `num`
oldest boundary entries. -/
def ringShift (ring : List Nat) (num keep : Nat) : List Nat :=
  tabulate ring.length (fun j => if j < keep then nth ring (j + num) 0 else nth ring j 0)

/-- Slice-assign `ring[start:start+vals.length] := vals`. -/
def ringWrite (ring : List Nat) (start : Nat) (vals : List Nat) : List Nat :=
  tabulate ring.length
    (fun j => if start ≤ j ∧ j < start + vals.length then nth vals (j - start) 0 else nth ring j 0)

/-- Absolute target slots of the batch entries whose terminal value is
positive (`boolean_mask(overwritten_indices, terminal > 0)`). -/
def newBoundaries (bi n cap : Nat) (t : List Int) : List Nat :=
  ((targetSlots bi n cap).zip t).filterMap (fun p => if 0 < p.2 then some p.1 else none)

/-- The state produced by a successful `enqueue` (steps 3-8 of the source:
evict, shift the ring, write the batch with the sentinel substitution on
the final terminal element, advance the cursor, record new boundaries). -/
def enqueueCore (q : Queue) (t r : List Int) : Queue :=
  let cap := q.capacity
  let n := t.length
  let terminal1 := undoSentinel q
  let targets := targetSlots q.bufferIndex n cap
  let numEp := evictCount q n
  let keep := (q.episodeCount + 1 - (numEp : Int)).toNat
  let ring1 := ringShift q.terminalIndices numEp keep
  let ec1 := q.episodeCount - (numEp : Int)
  let lastT := lastD t 0
  let tWrite := t.dropLast ++ [if lastT = 0 then 3 else lastT]
  { capacity := cap
    terminal := scatter terminal1 targets tWrite
    reward := scatter q.reward targets r
    bufferIndex := q.bufferIndex + n
    terminalIndices := ringWrite ring1 (ec1 + 1).toNat (newBoundaries q.bufferIndex n cap t)
    episodeCount := ec1 + (countNz t : Int) }

/-- `enqueue`: `none` models a failed assertion (or raised shape error),
`some` the completed write. -/
def enqueue (q : Queue) (t r : List Int) : Option Queue :=
  if enqueueGuards q t r then some (enqueueCore q t r) else none

/-- A valid call per the contract: non-empty batch that fits into capacity,
equal column lengths, terminal values drawn from the input domain
`{0, 1, 2}`, and any nonzero terminal only at the last position. -/
def validBatch (cap : Nat) (t r : List Int) : Bool :=
  !t.isEmpty && decide (t.length ≤ cap) && (r.length == t.length)
    && t.all (fun x => x == 0 || x == 1 || x == 2)
    && t.dropLast.all (fun x => x == 0)

/-- States reachable from construction by valid `enqueue` calls. -/
inductive Reachable (cap : Nat) : Queue → Prop
  | init : Reachable cap (initQueue cap)
  | step {q q' : Queue} {t r : List Int} : Reachable cap q →
      validBatch cap t r = true → enqueue q t r = some q' → Reachable cap q'

/-- `1` when the slot just before the cursor carries the pending-boundary
sentinel, `0` otherwise. -/
def pendingFlag (q : Queue) : Int :=
  if nth q.terminal (prevSlot q.capacity q.bufferIndex) 0 = 3 then 1 else 0

/-- The named field columns the operations can address. -/
inductive FieldName
  | terminal
  | reward
deriving DecidableEq, Repr

/-- The buffer backing a field. -/
def column (q : Queue) : FieldName → List Int
  | .terminal => q.terminal
  | .reward => q.reward

/-- `retrieve`: pure gather of the named columns at the given slots. -/
def retrieve (q : Queue) (idxs : List Nat) (fields : List FieldName) : List (List Int) :=
  fields.map (fun f => idxs.map (fun i => nth (column q f) i 0))

/-- One per-query row of the vectorized walk: the counted length, the
accumulated index row and its validity mask. -/
structure WalkState where
  len : Nat
  idxs : List Nat
  mask : List Bool
deriving DecidableEq, Repr

/-- One iteration of the `predecessors` while-loop body for a single query
row: prepend `(front - 1) mod capacity`, stay active only while the slot
just before the front is non-terminal. -/
def predStep (term : List Int) (cap : Nat) (s : WalkState) : WalkState :=
  let p := prevSlot cap (s.idxs.headD 0)
  let opn := !(decide (0 < nth term p 0)) && s.mask.headD false
  ⟨s.len + (if opn then 1 else 0), p :: s.idxs, opn :: s.mask⟩

/-- One iteration of the `successors` while-loop body for a single query
row: append `(back + 1) mod capacity`, stay active only while the current
back slot itself is non-terminal. -/
def succStep (term : List Int) (cap : Nat) (s : WalkState) : WalkState :=
  let c := lastD s.idxs 0
  let opn := !(decide (0 < nth term c 0)) && lastD s.mask false
  ⟨s.len + (if opn then 1 else 0), s.idxs ++ [(c + 1) % cap], s.mask ++ [opn]⟩

/-- Run a loop body a fixed number of times (`while_loop` with
`maximum_iterations = horizon` and an always-true condition). -/
def iterSteps (f : WalkState → WalkState) : Nat → WalkState → WalkState
  | 0, s => s
  | h + 1, s => iterSteps f h (f s)

/-- The full backward walk of one query. -/
def predWalk (term : List Int) (cap horizon start : Nat) : WalkState :=
  iterSteps (predStep term cap) horizon ⟨1, [start], [true]⟩

/-- The full forward walk of one query. -/
def succWalk (term : List Int) (cap horizon start : Nat) : WalkState :=
  iterSteps (succStep term cap) horizon ⟨1, [start], [true]⟩

/-- The masked flattening of one query row (`boolean_mask` after reshape). -/
def keptIdxs (s : WalkState) : List Nat :=
  ((s.idxs.zip s.mask).filter (fun p => p.2)).map (fun p => p.1)

/-- Failure outcomes of the walker calls: the explicitly raised
`TensorforceError.unexpected`, the Python `TypeError` from `list(None)`,
and a failed internal assertion. -/
inductive MemError
  | invalidArgument
  | typeError
  | consistencyFault
deriving DecidableEq, Repr

/-- The ragged walker output: per-query offsets and lengths, the flattened
kept indices, and the gathered sequence / boundary-end values. -/
structure WalkResult where
  offsets : List Nat
  lengths : List Nat
  flat : List Nat
  seqVals : List (List Int)
  endVals : List (List Int)
deriving DecidableEq, Repr

/-- The per-call safety assertion of `predecessors`:
`mod(index - buffer_index, capacity) ≥ 0` for every flattened index. -/
def predCheck (q : Queue) (idxs : List Nat) : Bool :=
  idxs.all (fun i => decide (0 ≤ ((i : Int) - (q.bufferIndex : Int)) % (q.capacity : Int)))

/-- The per-call safety assertion of `successors`:
`mod(buffer_index - 1 - index, capacity) ≥ 0` for every flattened index. -/
def succCheck (q : Queue) (idxs : List Nat) : Bool :=
  idxs.all (fun i => decide (0 ≤ ((q.bufferIndex : Int) - 1 - (i : Int)) % (q.capacity : Int)))

/-- `predecessors`.  Mirrors the source faithfully, including its slip: a
`None` sequence list is replaced by the empty tuple, but the corresponding
replacement for the initial-values list assigns to a misspelled variable
(`initial_Values`), so a `None` initial list reaches `list(None)` and
raises a `TypeError` instead of the intended `InvalidArgument`. -/
def predecessors (q : Queue) (starts : List Nat) (horizon : Nat)
    (seqFields initFields : Option (List FieldName)) : Except MemError WalkResult :=
  let sv := seqFields.getD []
  if sv = [] ∧ initFields = some [] then .error .invalidArgument
  else
    match initFields with
    | none => .error .typeError
    | some iv =>
      let walks := starts.map (predWalk q.terminal q.capacity horizon)
      let lengths := walks.map WalkState.len
      let flat := (walks.map keptIdxs).flatten
      if !predCheck q flat then .error .consistencyFault
      else
        let offsets := exCumsum 0 lengths
        let initIdxs := offsets.map (fun o => nth flat o 0)
        .ok ⟨offsets, lengths, flat,
          sv.map (fun f => flat.map (fun i => nth (column q f) i 0)),
          iv.map (fun f => initIdxs.map (fun i => nth (column q f) i 0))⟩

/-- `successors`, symmetric to `predecessors` (same misspelling slip for
its final-values list). -/
def successors (q : Queue) (starts : List Nat) (horizon : Nat)
    (seqFields finalFields : Option (List FieldName)) : Except MemError WalkResult :=
  let sv := seqFields.getD []
  if sv = [] ∧ finalFields = some [] then .error .invalidArgument
  else
    match finalFields with
    | none => .error .typeError
    | some fv =>
      let walks := starts.map (succWalk q.terminal q.capacity horizon)
      let lengths := walks.map WalkState.len
      let flat := (walks.map keptIdxs).flatten
      if !succCheck q flat then .error .consistencyFault
      else
        let offsets := exCumsum 0 lengths
        let ends := (offsets.zip lengths).map (fun p => p.1 + p.2 - 1)
        let finalIdxs := ends.map (fun o => nth flat o 0)
        .ok ⟨offsets, lengths, flat,
          sv.map (fun f => flat.map (fun i => nth (column q f) i 0)),
          fv.map (fun f => finalIdxs.map (fun i => nth (column q f) i 0))⟩

/-- Stopping rule of the backward walk as the spec words it: the number of
steps taken back from `i`, stopping once the slot immediately before the
current position holds a nonzero terminal flag or the horizon budget runs
out. -/
def specPredSteps (term : List Int) (cap : Nat) : Nat → Nat → Nat
  | 0, _ => 0
  | h + 1, i =>
    if 0 < nth term (prevSlot cap i) 0 then 0
    else 1 + specPredSteps term cap h (prevSlot cap i)

/-- Stopping rule of the forward walk as the spec words it: the number of
steps taken forward from `i`, stopping once the current slot itself holds
a nonzero terminal flag or the horizon budget runs out. -/
def specSuccSteps (term : List Int) (cap : Nat) : Nat → Nat → Nat
  | 0, _ => 0
  | h + 1, i =>
    if 0 < nth term i 0 then 0
    else 1 + specSuccSteps term cap h ((i + 1) % cap)

/-- Projection of a walk row to the data the backward loop body actually
consumes: the length, the front index and the front mask bit. -/
def projPred (s : WalkState) : Nat × Nat × Bool := (s.len, s.idxs.headD 0, s.mask.headD false)

/-- Projection of a walk row to the data the forward loop body actually
consumes: the length, the back index and the back mask bit. -/
def projSucc (s : WalkState) : Nat × Nat × Bool := (s.len, lastD s.idxs 0, lastD s.mask false)

/-- The backward loop body on the projected data. -/
def predTriple (term : List Int) (cap : Nat) (v : Nat × Nat × Bool) : Nat × Nat × Bool :=
  let p := prevSlot cap v.2.1
  let opn := !(decide (0 < nth term p 0)) && v.2.2
  (v.1 + (if opn then 1 else 0), p, opn)

/-- The forward loop body on the projected data. -/
def succTriple (term : List Int) (cap : Nat) (v : Nat × Nat × Bool) : Nat × Nat × Bool :=
  let opn := !(decide (0 < nth term v.2.1 0)) && v.2.2
  (v.1 + (if opn then 1 else 0), (v.2.1 + 1) % cap, opn)

/-- Iterated small step. -/
def iterTriple (f : Nat × Nat × Bool → Nat × Nat × Bool) :
    Nat → Nat × Nat × Bool → Nat × Nat × Bool
  | 0, v => v
  | h + 1, v => iterTriple f h (f v)

/-! ### Basic lemmas about the list primitives -/

theorem length_setN {α : Type} (l : List α) (i : Nat) (v : α) :
    (setN l i v).length = l.length := by
  induction l generalizing i with
  | nil => rfl
  | cons x xs ih =>
    cases i with
    | zero => rfl
    | succ j => simpa [setN] using ih j

theorem nth_setN_eq {α : Type} (l : List α) (i : Nat) (v d : α) (h : i < l.length) :
    nth (setN l i v) i d = v := by
  induction l generalizing i with
  | nil => simp at h
  | cons x xs ih =>
    cases i with
    | zero => rfl
    | succ j => exact ih j (by simpa using h)

theorem nth_setN_ne {α : Type} (l : List α) (i j : Nat) (v d : α) (h : j ≠ i) :
    nth (setN l i v) j d = nth l j d := by
  induction l generalizing i j with
  | nil => rfl
  | cons x xs ih =>
    cases i with
    | zero =>
      cases j with
      | zero => exact absurd rfl h
      | succ jj => rfl
    | succ ii =>
      cases j with
      | zero => rfl
      | succ jj => exact ih ii jj (by omega)

theorem countP_setN_int {α : Type} (p : α → Bool) (d : α) (l : List α) (i : Nat) (v : α)
    (h : i < l.length) :
    ((setN l i v).countP p : Int) =
      (l.countP p : Int) + (if p v then 1 else 0) - (if p (nth l i d) then 1 else 0) := by
  induction l generalizing i with
  | nil => simp at h
  | cons x xs ih =>
    cases i with
    | zero =>
      simp only [setN, nth, List.countP_cons]
      split_ifs <;> omega
    | succ j =>
      have hj : j < xs.length := by simpa using h
      have hx := ih j hj
      simp only [setN, nth, List.countP_cons]
      split_ifs at hx ⊢ <;> omega

theorem length_scatter {α : Type} (is : List Nat) (vs buf : List α) :
    (scatter buf is vs).length = buf.length := by
  induction is generalizing vs buf with
  | nil => simp [scatter]
  | cons i is ih =>
    cases vs with
    | nil => simp [scatter]
    | cons v vs => simp [scatter, ih, length_setN]

theorem nth_scatter_not_mem {α : Type} (d : α) (is : List Nat) (vs buf : List α) (j : Nat)
    (h : j ∉ is) : nth (scatter buf is vs) j d = nth buf j d := by
  induction is generalizing vs buf with
  | nil => simp [scatter]
  | cons i is ih =>
    simp only [List.mem_cons, not_or] at h
    cases vs with
    | nil => simp [scatter]
    | cons v vs =>
      simp only [scatter]
      rw [ih vs _ h.2]
      exact nth_setN_ne _ _ _ _ _ h.1

theorem nth_scatter_nodup {α : Type} (d : α) (is : List Nat) (vs buf : List α) (k : Nat)
    (hnd : is.Nodup) (hl : is.length = vs.length) (hb : ∀ i ∈ is, i < buf.length)
    (hk : k < is.length) :
    nth (scatter buf is vs) (nth is k 0) d = nth vs k d := by
  induction is generalizing vs buf k with
  | nil => simp at hk
  | cons i is ih =>
    cases vs with
    | nil => simp at hl
    | cons v vs =>
      rcases List.nodup_cons.mp hnd with ⟨hni, hnd'⟩
      cases k with
      | zero =>
        simp only [scatter, nth]
        rw [nth_scatter_not_mem d is vs _ i hni]
        exact nth_setN_eq _ _ _ _ (hb i (List.mem_cons_self _ _))
      | succ kk =>
        simp only [scatter, nth]
        exact ih vs (setN buf i v) kk hnd' (by simpa using hl)
          (fun j hj => by rw [length_setN]; exact hb j (List.mem_cons_of_mem _ hj))
          (by simpa using hk)

theorem map_nth_setN {α : Type} (d : α) (is : List Nat) (buf : List α) (i : Nat) (v : α)
    (h : i ∉ is) :
    is.map (fun j => nth (setN buf i v) j d) = is.map (fun j => nth buf j d) := by
  induction is with
  | nil => rfl
  | cons j js ih =>
    simp only [List.mem_cons, not_or] at h
    simp only [List.map_cons]
    rw [ih h.2, nth_setN_ne _ _ _ _ _ (fun he => h.1 he.symm)]

theorem countP_scatter_int {α : Type} (p : α → Bool) (d : α) (is : List Nat) (vs buf : List α)
    (hnd : is.Nodup) (hl : is.length = vs.length) (hb : ∀ i ∈ is, i < buf.length) :
    ((scatter buf is vs).countP p : Int) =
      (buf.countP p : Int) + (vs.countP p : Int)
        - ((is.map (fun i => nth buf i d)).countP p : Int) := by
  induction is generalizing vs buf with
  | nil =>
    have hvs : vs = [] := by
      cases vs with
      | nil => rfl
      | cons a as => simp at hl
    subst hvs
    simp [scatter]
  | cons i is ih =>
    cases vs with
    | nil => simp at hl
    | cons v vs =>
      rcases List.nodup_cons.mp hnd with ⟨hni, hnd'⟩
      have hib : i < buf.length := hb i (List.mem_cons_self _ _)
      simp only [scatter]
      rw [ih vs (setN buf i v) hnd' (by simpa using hl)
        (fun j hj => by rw [length_setN]; exact hb j (List.mem_cons_of_mem _ hj))]
      rw [countP_setN_int p d buf i v hib, map_nth_setN d is buf i v hni]
      simp only [List.map_cons, List.countP_cons]
      split_ifs <;> omega

theorem length_tabulate {α : Type} (n : Nat) (f : Nat → α) : (tabulate n f).length = n := by
  induction n generalizing f with
  | zero => rfl
  | succ m ih => simp [tabulate, ih]

theorem nth_tabulate {α : Type} (n : Nat) (f : Nat → α) (k : Nat) (d : α) (h : k < n) :
    nth (tabulate n f) k d = f k := by
  induction n generalizing f k with
  | zero => omega
  | succ m ih =>
    cases k with
    | zero => rfl
    | succ kk => exact ih _ kk (by omega)

theorem mem_tabulate {α : Type} (n : Nat) (f : Nat → α) (x : α) :
    x ∈ tabulate n f ↔ ∃ k, k < n ∧ f k = x := by
  induction n generalizing f with
  | zero => simp [tabulate]
  | succ m ih =>
    simp only [tabulate, List.mem_cons, ih]
    constructor
    · rintro (h | ⟨k, hk, he⟩)
      · exact ⟨0, by omega, h.symm⟩
      · exact ⟨k + 1, by omega, he⟩
    · rintro ⟨k, hk, he⟩
      cases k with
      | zero => exact Or.inl he.symm
      | succ kk => exact Or.inr ⟨kk, by omega, he⟩

theorem nodup_tabulate {α : Type} (n : Nat) (f : Nat → α)
    (hinj : ∀ a b, a < n → b < n → f a = f b → a = b) : (tabulate n f).Nodup := by
  induction n generalizing f with
  | zero => exact List.nodup_nil
  | succ m ih =>
    refine List.nodup_cons.mpr ⟨?_, ih _ (fun a b ha hb he => by
      have := hinj (a + 1) (b + 1) (by omega) (by omega) he
      omega)⟩
    intro hmem
    rcases (mem_tabulate _ _ _).mp hmem with ⟨k, hk, he⟩
    have := hinj (k + 1) 0 (by omega) (by omega) he
    omega

theorem lastD_mem {α : Type} (l : List α) (d : α) (h : l ≠ []) : lastD l d ∈ l := by
  induction l with
  | nil => exact absurd rfl h
  | cons x xs ih =>
    cases xs with
    | nil => simp [lastD]
    | cons y ys => exact List.mem_cons_of_mem _ (ih (by simp))

theorem dropLast_append_lastD {α : Type} (l : List α) (d : α) (h : l ≠ []) :
    l.dropLast ++ [lastD l d] = l := by
  induction l with
  | nil => exact absurd rfl h
  | cons x xs ih =>
    cases xs with
    | nil => rfl
    | cons y ys => simpa [lastD, List.dropLast] using ih (by simp)

theorem nth_append_left {α : Type} (l l' : List α) (k : Nat) (d : α) (h : k < l.length) :
    nth (l ++ l') k d = nth l k d := by
  induction l generalizing k with
  | nil => simp at h
  | cons x xs ih =>
    cases k with
    | zero => rfl
    | succ kk => exact ih kk (by simpa using h)

theorem nth_append_length {α : Type} (l : List α) (x d : α) :
    nth (l ++ [x]) l.length d = x := by
  induction l with
  | nil => rfl
  | cons y ys ih => simpa using ih

theorem nth_dropLast {α : Type} (l : List α) (k : Nat) (d : α) (h : k < l.length - 1) :
    nth l.dropLast k d = nth l k d := by
  induction l generalizing k with
  | nil => rfl
  | cons x xs ih =>
    cases xs with
    | nil => simp at h
    | cons y ys =>
      cases k with
      | zero => rfl
      | succ kk => exact ih kk (by simp at h ⊢; omega)

theorem countNz_nil : countNz [] = 0 := rfl

theorem countNz_append (l l' : List Int) : countNz (l ++ l') = countNz l + countNz l' :=
  List.countP_append _ _ _

theorem countNz_singleton (x : Int) : countNz [x] = if x = 0 then 0 else 1 := by
  simp only [countNz, List.countP_cons, List.countP_nil]
  rcases eq_or_ne x 0 with h | h <;> simp [h]

theorem countNz_eq_zero (l : List Int) (h : ∀ x ∈ l, x = 0) : countNz l = 0 := by
  induction l with
  | nil => rfl
  | cons x xs ih =>
    have hx := h x (List.mem_cons_self _ _)
    simp only [countNz, List.countP_cons] at *
    simp [hx, ih (fun y hy => h y (List.mem_cons_of_mem _ hy))]

theorem countNz_pos (l : List Int) (x : Int) (hx : x ∈ l) (hne : x ≠ 0) : 1 ≤ countNz l := by
  have : 0 < l.countP (fun x => x != 0) :=
    List.countP_pos_iff.mpr ⟨x, hx, by simpa using hne⟩
  simpa [countNz] using this

theorem countNz_le_length (l : List Int) : countNz l ≤ l.length :=
  List.countP_le_length _

theorem nth_replicate_append {α : Type} (k : Nat) (a b d : α) :
    nth (List.replicate k a ++ [b]) k d = b := by
  have := nth_append_length (List.replicate k a) b d
  simpa using this

theorem countNz_replicate_zero (k : Nat) : countNz (List.replicate k (0 : Int)) = 0 :=
  countNz_eq_zero _ (fun _ hx => (List.eq_of_mem_replicate hx))

/-! ### Target slots, guard decomposition and batch validity -/

theorem targetSlots_length (bi n cap : Nat) : (targetSlots bi n cap).length = n :=
  length_tabulate _ _

theorem nth_targetSlots (bi n cap k : Nat) (h : k < n) :
    nth (targetSlots bi n cap) k 0 = (bi + k) % cap :=
  nth_tabulate _ _ _ _ h

theorem mem_targetSlots_lt (bi n cap : Nat) (hcap : 0 < cap) :
    ∀ i ∈ targetSlots bi n cap, i < cap := by
  intro i hi
  rcases (mem_tabulate _ _ _).mp hi with ⟨k, _, he⟩
  rw [← he]
  exact Nat.mod_lt _ hcap

theorem targetSlots_nodup (bi n cap : Nat) (h : n ≤ cap) : (targetSlots bi n cap).Nodup := by
  refine nodup_tabulate _ _ (fun a b ha hb he => ?_)
  have hm : a ≡ b [MOD cap] := Nat.ModEq.add_left_cancel' bi he
  have : a % cap = b % cap := hm
  rwa [Nat.mod_eq_of_lt (by omega), Nat.mod_eq_of_lt (by omega)] at this

theorem length_undoSentinel (q : Queue) : (undoSentinel q).length = q.terminal.length := by
  simp [undoSentinel, length_setN]

theorem enqueue_eq_some (q q' : Queue) (t r : List Int) :
    enqueue q t r = some q' ↔ enqueueGuards q t r = true ∧ q' = enqueueCore q t r := by
  by_cases h : enqueueGuards q t r <;> simp [enqueue, h, eq_comm]

theorem enqueue_none_of_guards (q : Queue) (t r : List Int)
    (h : enqueueGuards q t r = false) : enqueue q t r = none := by
  simp [enqueue, h]

theorem guards_batch {q : Queue} {t r : List Int} (h : enqueueGuards q t r = true) :
    batchChecks q.capacity t = true := by
  simp only [enqueueGuards, Bool.and_eq_true] at h
  exact h.1.1.1

theorem guards_count {q : Queue} {t r : List Int} (h : enqueueGuards q t r = true) :
    (countNz (undoSentinel q) : Int) = q.episodeCount + 1 := by
  simp only [enqueueGuards, consistencyChecks, Bool.and_eq_true, beq_iff_eq] at h
  exact h.1.1.2.2

theorem guards_evict {q : Queue} {t r : List Int} (h : enqueueGuards q t r = true) :
    (evictCount q t.length : Int) ≤ q.episodeCount + 1 := by
  simp only [enqueueGuards, Bool.and_eq_true, decide_eq_true_eq] at h
  exact h.1.2

theorem valid_facts {cap : Nat} {t r : List Int} (hv : validBatch cap t r = true) :
    t ≠ [] ∧ t.length ≤ cap ∧ r.length = t.length ∧
      (∀ x ∈ t, x = 0 ∨ x = 1 ∨ x = 2) ∧ (∀ x ∈ t.dropLast, x = 0) := by
  simp only [validBatch, Bool.and_eq_true, decide_eq_true_eq, beq_iff_eq,
    Bool.not_eq_true', List.isEmpty_eq_false, List.all_eq_true, Bool.or_eq_true] at hv
  exact ⟨hv.1.1.1.1, hv.1.1.1.2, hv.1.1.2, fun x hx => or_assoc.mp (hv.1.2 x hx), fun x hx => hv.2 x hx⟩

theorem valid_lastT {cap : Nat} {t r : List Int} (hv : validBatch cap t r = true) :
    lastD t 0 = 0 ∨ lastD t 0 = 1 ∨ lastD t 0 = 2 := by
  rcases valid_facts hv with ⟨hne, _, _, hdom, _⟩
  exact hdom _ (lastD_mem t 0 hne)

theorem valid_countNz {cap : Nat} {t r : List Int} (hv : validBatch cap t r = true) :
    countNz t = if lastD t 0 = 0 then 0 else 1 := by
  rcases valid_facts hv with ⟨hne, _, _, _, hdz⟩
  conv_lhs => rw [← dropLast_append_lastD t 0 hne]
  rw [countNz_append, countNz_eq_zero _ hdz, countNz_singleton, Nat.zero_add]

/-! ### Effect of a successful `enqueue` on the buffers -/

theorem enqueueCore_capacity (q : Queue) (t r : List Int) :
    (enqueueCore q t r).capacity = q.capacity := rfl

theorem enqueueCore_bufferIndex (q : Queue) (t r : List Int) :
    (enqueueCore q t r).bufferIndex = q.bufferIndex + t.length := rfl

theorem enqueueCore_episodeCount (q : Queue) (t r : List Int) :
    (enqueueCore q t r).episodeCount
      = q.episodeCount - (evictCount q t.length : Int) + (countNz t : Int) := rfl

theorem enqueueCore_terminal (q : Queue) (t r : List Int) :
    (enqueueCore q t r).terminal
      = scatter (undoSentinel q) (targetSlots q.bufferIndex t.length q.capacity)
          (t.dropLast ++ [if lastD t 0 = 0 then 3 else lastD t 0]) := rfl

theorem enqueueCore_reward (q : Queue) (t r : List Int) :
    (enqueueCore q t r).reward
      = scatter q.reward (targetSlots q.bufferIndex t.length q.capacity) r := rfl

theorem enqueueCore_ring (q : Queue) (t r : List Int) :
    (enqueueCore q t r).terminalIndices
      = ringWrite
          (ringShift q.terminalIndices (evictCount q t.length)
            (q.episodeCount + 1 - (evictCount q t.length : Int)).toNat)
          (q.episodeCount - (evictCount q t.length : Int) + 1).toNat
          (newBoundaries q.bufferIndex t.length q.capacity t) := rfl

theorem enqueueCore_terminal_length (q : Queue) (t r : List Int) :
    (enqueueCore q t r).terminal.length = q.terminal.length := by
  rw [enqueueCore_terminal, length_scatter, length_undoSentinel]

theorem enqueueCore_reward_length (q : Queue) (t r : List Int) :
    (enqueueCore q t r).reward.length = q.reward.length := by
  rw [enqueueCore_reward, length_scatter]

theorem enqueueCore_ring_length (q : Queue) (t r : List Int) :
    (enqueueCore q t r).terminalIndices.length = q.terminalIndices.length := by
  rw [enqueueCore_ring]
  simp [ringWrite, ringShift, length_tabulate]

theorem enqueueCore_terminal_nth (q : Queue) (t r : List Int) (hcap : 0 < q.capacity)
    (hterm : q.terminal.length = q.capacity) (hne : t ≠ []) (hlen : t.length ≤ q.capacity)
    (k : Nat) (hk : k < t.length) :
    nth (enqueueCore q t r).terminal (nth (targetSlots q.bufferIndex t.length q.capacity) k 0) 0
      = nth (t.dropLast ++ [if lastD t 0 = 0 then 3 else lastD t 0]) k 0 := by
  have hpos : 0 < t.length := List.length_pos.mpr hne
  rw [enqueueCore_terminal]
  refine nth_scatter_nodup 0 _ _ _ k (targetSlots_nodup _ _ _ hlen) ?_ ?_ ?_
  · rw [targetSlots_length]
    simp only [List.length_append, List.length_dropLast, List.length_cons, List.length_nil]
    omega
  · intro i hi
    rw [length_undoSentinel, hterm]
    exact mem_targetSlots_lt _ _ _ hcap i hi
  · rwa [targetSlots_length]

theorem enqueueCore_terminal_nth_notMem (q : Queue) (t r : List Int) (j : Nat)
    (h : j ∉ targetSlots q.bufferIndex t.length q.capacity) :
    nth (enqueueCore q t r).terminal j 0 = nth (undoSentinel q) j 0 := by
  rw [enqueueCore_terminal]
  exact nth_scatter_not_mem 0 _ _ _ j h

theorem enqueueCore_reward_nth (q : Queue) (t r : List Int) (hcap : 0 < q.capacity)
    (hrew : q.reward.length = q.capacity) (hlen : t.length ≤ q.capacity)
    (hrl : r.length = t.length) (k : Nat) (hk : k < t.length) :
    nth (enqueueCore q t r).reward (nth (targetSlots q.bufferIndex t.length q.capacity) k 0) 0
      = nth r k 0 := by
  rw [enqueueCore_reward]
  refine nth_scatter_nodup 0 _ _ _ k (targetSlots_nodup _ _ _ hlen) ?_ ?_ ?_
  · rw [targetSlots_length, hrl]
  · intro i hi
    rw [hrew]
    exact mem_targetSlots_lt _ _ _ hcap i hi
  · rwa [targetSlots_length]

theorem enqueueCore_reward_nth_notMem (q : Queue) (t r : List Int) (j : Nat)
    (h : j ∉ targetSlots q.bufferIndex t.length q.capacity) :
    nth (enqueueCore q t r).reward j 0 = nth q.reward j 0 := by
  rw [enqueueCore_reward]
  exact nth_scatter_not_mem 0 _ _ _ j h

theorem enqueueCore_countNz (q : Queue) (t r : List Int) (hcap : 0 < q.capacity)
    (hterm : q.terminal.length = q.capacity) (hne : t ≠ []) (hlen : t.length ≤ q.capacity)
    (hdz : ∀ x ∈ t.dropLast, x = 0) :
    (countNz (enqueueCore q t r).terminal : Int)
      = (countNz (undoSentinel q) : Int) + 1 - (evictCount q t.length : Int) := by
  have hpos : 0 < t.length := List.length_pos.mpr hne
  rw [enqueueCore_terminal]
  have hct : countNz (t.dropLast ++ [if lastD t 0 = 0 then 3 else lastD t 0]) = 1 := by
    rw [countNz_append, countNz_eq_zero _ hdz, countNz_singleton]
    rcases eq_or_ne (lastD t 0) 0 with h0 | h0 <;> simp [h0]
  have hsc := countP_scatter_int (fun x => x != 0) 0
    (targetSlots q.bufferIndex t.length q.capacity)
    (t.dropLast ++ [if lastD t 0 = 0 then 3 else lastD t 0]) (undoSentinel q)
    (targetSlots_nodup _ _ _ hlen)
    (by rw [targetSlots_length]
        simp only [List.length_append, List.length_dropLast, List.length_cons, List.length_nil]
        omega)
    (fun i hi => by rw [length_undoSentinel, hterm]; exact mem_targetSlots_lt _ _ _ hcap i hi)
  simp only [countNz, evictCount] at hct hsc ⊢
  rw [hsc, hct]
  simp

theorem enqueueCore_lastSlot (q : Queue) (t r : List Int) (hcap : 0 < q.capacity)
    (hterm : q.terminal.length = q.capacity) (hne : t ≠ []) (hlen : t.length ≤ q.capacity) :
    nth (enqueueCore q t r).terminal (prevSlot q.capacity (q.bufferIndex + t.length)) 0
      = (if lastD t 0 = 0 then 3 else lastD t 0) := by
  have hpos : 0 < t.length := List.length_pos.mpr hne
  have hidx : prevSlot q.capacity (q.bufferIndex + t.length)
      = nth (targetSlots q.bufferIndex t.length q.capacity) (t.length - 1) 0 := by
    rw [nth_targetSlots _ _ _ _ (by omega)]
    unfold prevSlot
    have he : q.bufferIndex + t.length + q.capacity - 1
        = q.bufferIndex + (t.length - 1) + q.capacity := by omega
    rw [he, Nat.add_mod_right]
  rw [hidx, enqueueCore_terminal_nth q t r hcap hterm hne hlen (t.length - 1) (by omega)]
  have hd : t.dropLast.length = t.length - 1 := List.length_dropLast t
  rw [← hd, nth_append_length]

theorem enqueue_accounting (q q' : Queue) (t r : List Int) (hcap : 0 < q.capacity)
    (hterm : q.terminal.length = q.capacity)
    (hv : validBatch q.capacity t r = true) (h : enqueue q t r = some q') :
    (countNz q'.terminal : Int) = q'.episodeCount + 1 + (if lastD t 0 = 0 then 1 else 0) ∧
    nth q'.terminal (prevSlot q'.capacity q'.bufferIndex) 0
      = (if lastD t 0 = 0 then 3 else lastD t 0) ∧
    q'.capacity = q.capacity ∧ q'.bufferIndex = q.bufferIndex + t.length ∧
    q'.terminal.length = q.capacity ∧ q'.reward.length = q.reward.length ∧
    q'.terminalIndices.length = q.terminalIndices.length ∧
    q'.episodeCount = q.episodeCount - (evictCount q t.length : Int) + (countNz t : Int) := by
  rcases (enqueue_eq_some q q' t r).mp h with ⟨hg, hq'⟩
  rcases valid_facts hv with ⟨hne, hlen, _, _, hdz⟩
  subst hq'
  refine ⟨?_, ?_, rfl, rfl, ?_, enqueueCore_reward_length q t r, enqueueCore_ring_length q t r,
    rfl⟩
  · rw [enqueueCore_countNz q t r hcap hterm hne hlen hdz, guards_count hg,
      enqueueCore_episodeCount, valid_countNz hv]
    rcases eq_or_ne (lastD t 0) 0 with h0 | h0 <;> simp [h0] <;> ring
  · rw [enqueueCore_capacity, enqueueCore_bufferIndex]
    exact enqueueCore_lastSlot q t r hcap hterm hne hlen
  · rw [enqueueCore_terminal_length, hterm]

theorem enqueue_pendingFlag (q q' : Queue) (t r : List Int) (hcap : 0 < q.capacity)
    (hterm : q.terminal.length = q.capacity)
    (hv : validBatch q.capacity t r = true) (h : enqueue q t r = some q') :
    pendingFlag q' = (if lastD t 0 = 0 then 1 else 0) := by
  rcases enqueue_accounting q q' t r hcap hterm hv h with ⟨_, h2, _⟩
  unfold pendingFlag
  rw [h2]
  rcases valid_lastT hv with h0 | h0 | h0 <;> simp [h0]

theorem init_terminal_length (cap : Nat) (hcap : 0 < cap) :
    (initQueue cap).terminal.length = cap := by
  simp only [initQueue, List.length_append, List.length_replicate, List.length_cons,
    List.length_nil]
  omega

theorem init_reward_length (cap : Nat) : (initQueue cap).reward.length = cap := by
  simp [initQueue]

theorem init_ring_length (cap : Nat) : (initQueue cap).terminalIndices.length = cap + 1 := by
  simp [initQueue]

theorem init_countNz (cap : Nat) : countNz (initQueue cap).terminal = 1 := by
  show countNz (List.replicate (cap - 1) 0 ++ [1]) = 1
  rw [countNz_append, countNz_replicate_zero, countNz_singleton]
  simp

theorem init_prevSlot_val (cap : Nat) (hcap : 0 < cap) :
    nth (initQueue cap).terminal (prevSlot cap 0) 0 = 1 := by
  have h1 : prevSlot cap 0 = cap - 1 := by
    unfold prevSlot
    rw [Nat.zero_add, Nat.mod_eq_of_lt (by omega)]
  rw [h1]
  exact nth_replicate_append (cap - 1) 0 1 0

theorem reachable_struct (cap : Nat) (q : Queue) (hq : Reachable cap q) (hcap : 0 < cap) :
    q.capacity = cap ∧ q.terminal.length = cap ∧ q.reward.length = cap ∧
      q.terminalIndices.length = cap + 1 := by
  induction hq with
  | init =>
    exact ⟨rfl, init_terminal_length cap hcap, init_reward_length cap, init_ring_length cap⟩
  | step h1 h2 h3 ih =>
    rcases (enqueue_eq_some _ _ _ _).mp h3 with ⟨_, hq'⟩
    subst hq'
    refine ⟨?_, ?_, ?_, ?_⟩
    · rw [enqueueCore_capacity]; exact ih.1
    · rw [enqueueCore_terminal_length]; exact ih.2.1
    · rw [enqueueCore_reward_length]; exact ih.2.2.1
    · rw [enqueueCore_ring_length]; exact ih.2.2.2

theorem reachable_count (cap : Nat) (q : Queue) (hq : Reachable cap q) (hcap : 0 < cap) :
    (countNz q.terminal : Int) = q.episodeCount + 1 + pendingFlag q := by
  induction hq with
  | init =>
    have h2 : pendingFlag (initQueue cap) = 0 := by
      unfold pendingFlag
      have : nth (initQueue cap).terminal (prevSlot (initQueue cap).capacity
          (initQueue cap).bufferIndex) 0 = 1 := init_prevSlot_val cap hcap
      rw [this]
      simp
    rw [init_countNz cap, h2]
    simp [initQueue]
  | @step q q' t r h1 h2 h3 ih =>
    rcases reachable_struct cap q h1 hcap with ⟨hc, hterm, _, _⟩
    have hcap' : 0 < q.capacity := by omega
    have hterm' : q.terminal.length = q.capacity := by rw [hc]; exact hterm
    have hv' : validBatch q.capacity t r = true := by rw [hc]; exact h2
    rcases enqueue_accounting q q' t r hcap' hterm' hv' h3 with ⟨hcount, _⟩
    rw [hcount, enqueue_pendingFlag q q' t r hcap' hterm' hv' h3]

theorem enqueue_next_check (q q' : Queue) (t r : List Int) (hcap : 0 < q.capacity)
    (hterm : q.terminal.length = q.capacity)
    (hv : validBatch q.capacity t r = true) (h : enqueue q t r = some q') :
    (countNz (undoSentinel q') : Int) = q'.episodeCount + 1 := by
  rcases enqueue_accounting q q' t r hcap hterm hv h with
    ⟨hcount, hlast, hc, _, hlenq', _⟩
  have hli : prevSlot q'.capacity q'.bufferIndex < q'.terminal.length := by
    rw [hlenq', hc]
    exact Nat.mod_lt _ hcap
  have hset := countP_setN_int (fun x => x != 0) (0 : Int) q'.terminal
    (prevSlot q'.capacity q'.bufferIndex)
    (if nth q'.terminal (prevSlot q'.capacity q'.bufferIndex) 0 = 3 then 0
      else nth q'.terminal (prevSlot q'.capacity q'.bufferIndex) 0) hli
  show ((setN q'.terminal (prevSlot q'.capacity q'.bufferIndex)
      (if nth q'.terminal (prevSlot q'.capacity q'.bufferIndex) 0 = 3 then 0
        else nth q'.terminal (prevSlot q'.capacity q'.bufferIndex) 0)).countP
      (fun x => x != 0) : Int) = q'.episodeCount + 1
  rw [hset]
  simp only [countNz] at hcount
  rw [hcount, hlast]
  rcases valid_lastT hv with h0 | h0 | h0 <;> simp [h0]

theorem nth_undoSentinel_ne (q : Queue) (j : Nat)
    (h : j ≠ prevSlot q.capacity q.bufferIndex) :
    nth (undoSentinel q) j 0 = nth q.terminal j 0 := by
  unfold undoSentinel
  exact nth_setN_ne _ _ _ _ _ h

theorem nth_undoSentinel_self (q : Queue)
    (h : prevSlot q.capacity q.bufferIndex < q.terminal.length) :
    nth (undoSentinel q) (prevSlot q.capacity q.bufferIndex) 0
      = (if nth q.terminal (prevSlot q.capacity q.bufferIndex) 0 = 3 then 0
         else nth q.terminal (prevSlot q.capacity q.bufferIndex) 0) := by
  unfold undoSentinel
  exact nth_setN_eq _ _ _ _ h

theorem enqueue_ring_shift (q q' : Queue) (t r : List Int) (_hcap : 0 < q.capacity)
    (hterm : q.terminal.length = q.capacity)
    (hring : q.terminalIndices.length = q.capacity + 1)
    (h : enqueue q t r = some q') (j : Nat)
    (hj : (j : Int) < q.episodeCount + 1 - (evictCount q t.length : Int)) :
    nth q'.terminalIndices j 0 = nth q.terminalIndices (j + evictCount q t.length) 0 := by
  rcases (enqueue_eq_some q q' t r).mp h with ⟨hg, hq'⟩
  subst hq'
  rw [enqueueCore_ring]
  have hjk : j < (q.episodeCount + 1 - (evictCount q t.length : Int)).toNat :=
    Int.lt_toNat.mpr hj
  have hcount := guards_count hg
  have hle : countNz (undoSentinel q) ≤ q.capacity := by
    have h1 : countNz (undoSentinel q) ≤ (undoSentinel q).length := countNz_le_length _
    rwa [length_undoSentinel, hterm] at h1
  have hkeep_le : (q.episodeCount + 1 - (evictCount q t.length : Int)).toNat ≤ q.capacity := by
    omega
  have hstart : (q.episodeCount - (evictCount q t.length : Int) + 1).toNat
      = (q.episodeCount + 1 - (evictCount q t.length : Int)).toNat := by
    congr 1
    ring
  rw [hstart]
  have hr1len : (ringShift q.terminalIndices (evictCount q t.length)
      (q.episodeCount + 1 - (evictCount q t.length : Int)).toNat).length
      = q.terminalIndices.length := by
    simp [ringShift, length_tabulate]
  unfold ringWrite
  rw [nth_tabulate _ _ _ _ (by rw [hr1len, hring]; omega)]
  rw [if_neg (by omega)]
  unfold ringShift
  rw [nth_tabulate _ _ _ _ (by rw [hring]; omega)]
  rw [if_pos hjk]

/-! ### The walker loop computes the spec stopping rule -/

theorem lastD_concat {α : Type} (l : List α) (x d : α) : lastD (l ++ [x]) d = x := by
  induction l with
  | nil => rfl
  | cons y ys ih =>
    cases ys with
    | nil => rfl
    | cons z zs => exact ih

theorem projPred_predStep (term : List Int) (cap : Nat) (s : WalkState) :
    projPred (predStep term cap s) = predTriple term cap (projPred s) := rfl

theorem projSucc_succStep (term : List Int) (cap : Nat) (s : WalkState) :
    projSucc (succStep term cap s) = succTriple term cap (projSucc s) := by
  unfold projSucc succStep succTriple
  simp [lastD_concat]

theorem projPred_iterSteps (term : List Int) (cap : Nat) (h : Nat) (s : WalkState) :
    projPred (iterSteps (predStep term cap) h s) = iterTriple (predTriple term cap) h (projPred s) := by
  induction h generalizing s with
  | zero => rfl
  | succ k ih =>
    show projPred (iterSteps (predStep term cap) k (predStep term cap s))
      = iterTriple (predTriple term cap) k (predTriple term cap (projPred s))
    rw [ih (predStep term cap s), projPred_predStep]

theorem projSucc_iterSteps (term : List Int) (cap : Nat) (h : Nat) (s : WalkState) :
    projSucc (iterSteps (succStep term cap) h s) = iterTriple (succTriple term cap) h (projSucc s) := by
  induction h generalizing s with
  | zero => rfl
  | succ k ih =>
    show projSucc (iterSteps (succStep term cap) k (succStep term cap s))
      = iterTriple (succTriple term cap) k (succTriple term cap (projSucc s))
    rw [ih (succStep term cap s), projSucc_succStep]

theorem iterTriple_pred_false (term : List Int) (cap : Nat) (h : Nat) (l i : Nat) :
    (iterTriple (predTriple term cap) h (l, i, false)).1 = l ∧
      (iterTriple (predTriple term cap) h (l, i, false)).2.2 = false := by
  induction h generalizing l i with
  | zero => exact ⟨rfl, rfl⟩
  | succ k ih =>
    have hstep : predTriple term cap (l, i, false) = (l, prevSlot cap i, false) := by
      simp [predTriple]
    have hh : iterTriple (predTriple term cap) (k + 1) (l, i, false)
        = iterTriple (predTriple term cap) k (l, prevSlot cap i, false) := by
      show iterTriple (predTriple term cap) k (predTriple term cap (l, i, false)) = _
      rw [hstep]
    rw [hh]
    exact ih l (prevSlot cap i)

theorem iterTriple_succ_false (term : List Int) (cap : Nat) (h : Nat) (l i : Nat) :
    (iterTriple (succTriple term cap) h (l, i, false)).1 = l ∧
      (iterTriple (succTriple term cap) h (l, i, false)).2.2 = false := by
  induction h generalizing l i with
  | zero => exact ⟨rfl, rfl⟩
  | succ k ih =>
    have hstep : succTriple term cap (l, i, false) = (l, (i + 1) % cap, false) := by
      simp [succTriple]
    have hh : iterTriple (succTriple term cap) (k + 1) (l, i, false)
        = iterTriple (succTriple term cap) k (l, (i + 1) % cap, false) := by
      show iterTriple (succTriple term cap) k (succTriple term cap (l, i, false)) = _
      rw [hstep]
    rw [hh]
    exact ih l ((i + 1) % cap)

theorem iterTriple_pred_spec (term : List Int) (cap : Nat) (h : Nat) (i l : Nat) :
    (iterTriple (predTriple term cap) h (l, i, true)).1 = l + specPredSteps term cap h i := by
  induction h generalizing i l with
  | zero => simp [iterTriple, specPredSteps]
  | succ k ih =>
    show (iterTriple (predTriple term cap) k (predTriple term cap (l, i, true))).1
      = l + specPredSteps term cap (k + 1) i
    by_cases hc : 0 < nth term (prevSlot cap i) 0
    · have hstep : predTriple term cap (l, i, true) = (l, prevSlot cap i, false) := by
        simp [predTriple, hc]
      rw [hstep, (iterTriple_pred_false term cap k l _).1]
      simp [specPredSteps, hc]
    · have hstep : predTriple term cap (l, i, true) = (l + 1, prevSlot cap i, true) := by
        simp [predTriple, hc]
      rw [hstep, ih (prevSlot cap i) (l + 1)]
      simp only [specPredSteps, if_neg hc]
      omega

theorem iterTriple_succ_spec (term : List Int) (cap : Nat) (h : Nat) (i l : Nat) :
    (iterTriple (succTriple term cap) h (l, i, true)).1 = l + specSuccSteps term cap h i := by
  induction h generalizing i l with
  | zero => simp [iterTriple, specSuccSteps]
  | succ k ih =>
    show (iterTriple (succTriple term cap) k (succTriple term cap (l, i, true))).1
      = l + specSuccSteps term cap (k + 1) i
    by_cases hc : 0 < nth term i 0
    · have hstep : succTriple term cap (l, i, true) = (l, (i + 1) % cap, false) := by
        simp [succTriple, hc]
      rw [hstep, (iterTriple_succ_false term cap k l _).1]
      simp [specSuccSteps, hc]
    · have hstep : succTriple term cap (l, i, true) = (l + 1, (i + 1) % cap, true) := by
        simp [succTriple, hc]
      rw [hstep, ih ((i + 1) % cap) (l + 1)]
      simp only [specSuccSteps, if_neg hc]
      omega

theorem specPredSteps_le (term : List Int) (cap : Nat) (h i : Nat) :
    specPredSteps term cap h i ≤ h := by
  induction h generalizing i with
  | zero => simp [specPredSteps]
  | succ k ih =>
    unfold specPredSteps
    split
    · omega
    · have := ih (prevSlot cap i)
      omega

theorem specSuccSteps_le (term : List Int) (cap : Nat) (h i : Nat) :
    specSuccSteps term cap h i ≤ h := by
  induction h generalizing i with
  | zero => simp [specSuccSteps]
  | succ k ih =>
    unfold specSuccSteps
    split
    · omega
    · have := ih ((i + 1) % cap)
      omega

theorem predWalk_len (term : List Int) (cap horizon start : Nat) :
    (predWalk term cap horizon start).len = 1 + specPredSteps term cap horizon start := by
  have h1 : (predWalk term cap horizon start).len
      = (projPred (predWalk term cap horizon start)).1 := rfl
  rw [h1, predWalk, projPred_iterSteps]
  have h2 : projPred ⟨1, [start], [true]⟩ = (1, start, true) := rfl
  rw [h2, iterTriple_pred_spec]

theorem succWalk_len (term : List Int) (cap horizon start : Nat) :
    (succWalk term cap horizon start).len = 1 + specSuccSteps term cap horizon start := by
  have h1 : (succWalk term cap horizon start).len
      = (projSucc (succWalk term cap horizon start)).1 := rfl
  rw [h1, succWalk, projSucc_iterSteps]
  have h2 : projSucc ⟨1, [start], [true]⟩ = (1, start, true) := rfl
  rw [h2, iterTriple_succ_spec]

/-! ### Claim theorems -/

/-- Claim C1, counterexample: the reachable state obtained by enqueueing
the single non-terminal batch `[0]` into a fresh capacity-4 store has two
nonzero terminal flags (the seed at slot 3 and the sentinel at slot 0) but
`episode_count = 0`, so the claimed count `episode_count + 1` fails after a
call whose batch ends with a non-terminal element. -/
theorem boundary_count_claim_counterexample :
    (validBatch 4 [0] [0] = true ∧
      enqueue (initQueue 4) [0] [0]
        = some ⟨4, [3, 0, 0, 1], [0, 0, 0, 0], 1, [3, 0, 0, 0, 0], 0⟩ ∧
      Reachable 4 (⟨4, [3, 0, 0, 1], [0, 0, 0, 0], 1, [3, 0, 0, 0, 0], 0⟩ : Queue)) ∧
    (countNz (Queue.terminal ⟨4, [3, 0, 0, 1], [0, 0, 0, 0], 1, [3, 0, 0, 0, 0], 0⟩) : Int)
      ≠ Queue.episodeCount ⟨4, [3, 0, 0, 1], [0, 0, 0, 0], 1, [3, 0, 0, 0, 0], 0⟩ + 1 := by
  have h1 : validBatch 4 [0] [0] = true := by decide
  have h2 : enqueue (initQueue 4) [0] [0]
      = some ⟨4, [3, 0, 0, 1], [0, 0, 0, 0], 1, [3, 0, 0, 0, 0], 0⟩ := by decide
  exact ⟨⟨h1, h2, Reachable.step Reachable.init h1 h2⟩, by decide⟩

/-- Claim C1 (amended): for every reachable state the number of nonzero
terminal slots equals `episode_count + 1` plus one extra when the slot just
before the cursor carries the pending sentinel `3` (which happens exactly
when the last valid enqueue ended with a non-terminal element); the count
is `episode_count + 1` exactly as observed by each call's consistency
check, which runs after the sentinel undo. -/
theorem reachable_boundary_count (cap : Nat) (q : Queue) (hq : Reachable cap q)
    (hcap : 0 < cap) :
    (countNz q.terminal : Int) = q.episodeCount + 1 + pendingFlag q :=
  reachable_count cap q hq hcap

/-- Witness for the amended C1 at the initial capacity-4 store. -/
theorem reachable_boundary_count_witness :
    0 < 4 ∧ (countNz (initQueue 4).terminal : Int)
      = (initQueue 4).episodeCount + 1 + pendingFlag (initQueue 4) :=
  ⟨by decide, reachable_boundary_count 4 (initQueue 4) Reachable.init (by decide)⟩

/-- Claim C2, counterexample: after enqueueing `[0,0,0,1]` into a fresh
capacity-4 store, `episode_count` is `0`, not `1` as the claim states —
the batch overwrites the seed boundary at slot 3, which is evicted
(decrement), and the new genuine terminal re-increments, netting zero. -/
theorem scenarioA_episodeCount_counterexample :
    (enqueue (initQueue 4) [0, 0, 0, 1] [0, 0, 0, 0]).map Queue.episodeCount = some 0 ∧
    (enqueue (initQueue 4) [0, 0, 0, 1] [0, 0, 0, 0]).map Queue.episodeCount ≠ some 1 :=
  ⟨by decide, by decide⟩

/-- Claim C2 (amended): for a fresh store with capacity 4, enqueueing the
terminal batch `[0,0,0,1]` leaves `episode_count = 0` (the seed boundary at
slot 3 is overwritten and evicted while the new episode is recorded) and
the boundary ring's logical content equal to `[3]`; the subsequent enqueue
of `[0,0]` overwrites slots 0 and 1, evicts no boundary, writes the
sentinel `3` as the terminal flag of slot 1, and leaves `episode_count`
unchanged at `0`. -/
theorem scenarioA_trace :
    enqueue (initQueue 4) [0, 0, 0, 1] [0, 0, 0, 0]
      = some ⟨4, [0, 0, 0, 1], [0, 0, 0, 0], 4, [3, 0, 0, 0, 0], 0⟩ ∧
    Queue.episodeCount ⟨4, [0, 0, 0, 1], [0, 0, 0, 0], 4, [3, 0, 0, 0, 0], 0⟩ = 0 ∧
    (Queue.terminalIndices ⟨4, [0, 0, 0, 1], [0, 0, 0, 0], 4, [3, 0, 0, 0, 0], 0⟩).take
      ((Queue.episodeCount ⟨4, [0, 0, 0, 1], [0, 0, 0, 0], 4, [3, 0, 0, 0, 0], 0⟩ + 1).toNat)
      = [3] ∧
    targetSlots 4 2 4 = [0, 1] ∧
    evictCount ⟨4, [0, 0, 0, 1], [0, 0, 0, 0], 4, [3, 0, 0, 0, 0], 0⟩ 2 = 0 ∧
    enqueue ⟨4, [0, 0, 0, 1], [0, 0, 0, 0], 4, [3, 0, 0, 0, 0], 0⟩ [0, 0] [0, 0]
      = some ⟨4, [0, 3, 0, 1], [0, 0, 0, 0], 6, [3, 0, 0, 0, 0], 0⟩ ∧
    nth (Queue.terminal ⟨4, [0, 3, 0, 1], [0, 0, 0, 0], 6, [3, 0, 0, 0, 0], 0⟩) 1 0 = 3 ∧
    Queue.episodeCount ⟨4, [0, 3, 0, 1], [0, 0, 0, 0], 6, [3, 0, 0, 0, 0], 0⟩ = 0 := by
  decide

/-- Claim C7: each enqueue first rewrites the terminal flag at
`(buffer_index - 1) mod capacity` to `0` exactly when it equals the
sentinel `3` (leaving genuine values unchanged, and touching no other
slot); when writing the batch it stores every non-final terminal element
unchanged, and at the final written slot stores the sentinel `3` exactly
when the batch's last terminal element is `0`, otherwise the genuine
value. -/
theorem sentinel_undo_and_substitution (q q' : Queue) (t r : List Int)
    (hcap : 0 < q.capacity) (hterm : q.terminal.length = q.capacity)
    (hv : validBatch q.capacity t r = true) (h : enqueue q t r = some q') :
    nth (undoSentinel q) (prevSlot q.capacity q.bufferIndex) 0
      = (if nth q.terminal (prevSlot q.capacity q.bufferIndex) 0 = 3 then 0
         else nth q.terminal (prevSlot q.capacity q.bufferIndex) 0) ∧
    (∀ j, j ≠ prevSlot q.capacity q.bufferIndex →
      nth (undoSentinel q) j 0 = nth q.terminal j 0) ∧
    (∀ k, k < t.length - 1 →
      nth q'.terminal (nth (targetSlots q.bufferIndex t.length q.capacity) k 0) 0
        = nth t k 0) ∧
    nth q'.terminal (prevSlot q'.capacity q'.bufferIndex) 0
      = (if lastD t 0 = 0 then 3 else lastD t 0) := by
  rcases valid_facts hv with ⟨hne, hlen, _, _, _⟩
  refine ⟨?_, fun j hj => nth_undoSentinel_ne q j hj, fun k hk => ?_, ?_⟩
  · exact nth_undoSentinel_self q (by rw [hterm]; exact Nat.mod_lt _ hcap)
  · rcases (enqueue_eq_some q q' t r).mp h with ⟨_, hq'⟩
    subst hq'
    rw [enqueueCore_terminal_nth q t r hcap hterm hne hlen k (by omega)]
    rw [nth_append_left _ _ k 0 (by rw [List.length_dropLast]; omega),
      nth_dropLast t k 0 hk]
  · exact (enqueue_accounting q q' t r hcap hterm hv h).2.1

/-- Witness for C7: the two-element batch `[0,1]` on a fresh capacity-4
store. -/
theorem sentinel_undo_and_substitution_witness :
    (0 < (initQueue 4).capacity ∧
      (initQueue 4).terminal.length = (initQueue 4).capacity ∧
      validBatch (initQueue 4).capacity [0, 1] [0, 0] = true ∧
      enqueue (initQueue 4) [0, 1] [0, 0]
        = some ⟨4, [0, 1, 0, 1], [0, 0, 0, 0], 2, [3, 1, 0, 0, 0], 1⟩) ∧
    (nth (undoSentinel (initQueue 4)) (prevSlot (initQueue 4).capacity
        (initQueue 4).bufferIndex) 0
      = (if nth (initQueue 4).terminal (prevSlot (initQueue 4).capacity
          (initQueue 4).bufferIndex) 0 = 3 then 0
         else nth (initQueue 4).terminal (prevSlot (initQueue 4).capacity
          (initQueue 4).bufferIndex) 0) ∧
    (∀ j, j ≠ prevSlot (initQueue 4).capacity (initQueue 4).bufferIndex →
      nth (undoSentinel (initQueue 4)) j 0 = nth (initQueue 4).terminal j 0) ∧
    (∀ k, k < ([0, 1] : List Int).length - 1 →
      nth (Queue.terminal ⟨4, [0, 1, 0, 1], [0, 0, 0, 0], 2, [3, 1, 0, 0, 0], 1⟩)
        (nth (targetSlots (initQueue 4).bufferIndex ([0, 1] : List Int).length
          (initQueue 4).capacity) k 0) 0 = nth ([0, 1] : List Int) k 0) ∧
    nth (Queue.terminal ⟨4, [0, 1, 0, 1], [0, 0, 0, 0], 2, [3, 1, 0, 0, 0], 1⟩)
      (prevSlot (Queue.capacity ⟨4, [0, 1, 0, 1], [0, 0, 0, 0], 2, [3, 1, 0, 0, 0], 1⟩)
        (Queue.bufferIndex ⟨4, [0, 1, 0, 1], [0, 0, 0, 0], 2, [3, 1, 0, 0, 0], 1⟩)) 0
      = (if lastD ([0, 1] : List Int) 0 = 0 then 3 else lastD ([0, 1] : List Int) 0)) :=
  ⟨⟨by decide, by decide, by decide, by decide⟩,
    sentinel_undo_and_substitution (initQueue 4)
      ⟨4, [0, 1, 0, 1], [0, 0, 0, 0], 2, [3, 1, 0, 0, 0], 1⟩ [0, 1] [0, 0]
      (by decide) (by decide) (by decide) (by decide)⟩

/-- Claim C10: after every successful valid enqueue the slot just before
the new cursor holds a nonzero terminal flag; the total nonzero count is
`episode_count + 1` when the batch's last terminal element was genuine and
`episode_count + 2` when it was `0` (sentinel substituted); and the
post-undo buffer the next call's consistency check observes has exactly
`episode_count + 1` nonzero flags in both cases. -/
theorem post_enqueue_terminal_accounting (q q' : Queue) (t r : List Int)
    (hcap : 0 < q.capacity) (hterm : q.terminal.length = q.capacity)
    (hv : validBatch q.capacity t r = true) (h : enqueue q t r = some q') :
    nth q'.terminal (prevSlot q'.capacity q'.bufferIndex) 0 ≠ 0 ∧
    (countNz q'.terminal : Int)
      = q'.episodeCount + 1 + (if lastD t 0 = 0 then 1 else 0) ∧
    (countNz (undoSentinel q') : Int) = q'.episodeCount + 1 := by
  rcases enqueue_accounting q q' t r hcap hterm hv h with ⟨h1, h2, _⟩
  refine ⟨?_, h1, enqueue_next_check q q' t r hcap hterm hv h⟩
  rw [h2]
  rcases valid_lastT hv with h0 | h0 | h0 <;> simp [h0]

/-- Witness for C10: the non-terminal batch `[0]` on a fresh capacity-4
store (the sentinel case). -/
theorem post_enqueue_terminal_accounting_witness :
    (0 < (initQueue 4).capacity ∧
      (initQueue 4).terminal.length = (initQueue 4).capacity ∧
      validBatch (initQueue 4).capacity [0] [0] = true ∧
      enqueue (initQueue 4) [0] [0]
        = some ⟨4, [3, 0, 0, 1], [0, 0, 0, 0], 1, [3, 0, 0, 0, 0], 0⟩) ∧
    (nth (Queue.terminal ⟨4, [3, 0, 0, 1], [0, 0, 0, 0], 1, [3, 0, 0, 0, 0], 0⟩)
      (prevSlot (Queue.capacity ⟨4, [3, 0, 0, 1], [0, 0, 0, 0], 1, [3, 0, 0, 0, 0], 0⟩)
        (Queue.bufferIndex ⟨4, [3, 0, 0, 1], [0, 0, 0, 0], 1, [3, 0, 0, 0, 0], 0⟩)) 0 ≠ 0 ∧
    (countNz (Queue.terminal ⟨4, [3, 0, 0, 1], [0, 0, 0, 0], 1, [3, 0, 0, 0, 0], 0⟩) : Int)
      = Queue.episodeCount ⟨4, [3, 0, 0, 1], [0, 0, 0, 0], 1, [3, 0, 0, 0, 0], 0⟩ + 1
        + (if lastD ([0] : List Int) 0 = 0 then 1 else 0) ∧
    (countNz (undoSentinel ⟨4, [3, 0, 0, 1], [0, 0, 0, 0], 1, [3, 0, 0, 0, 0], 0⟩) : Int)
      = Queue.episodeCount ⟨4, [3, 0, 0, 1], [0, 0, 0, 0], 1, [3, 0, 0, 0, 0], 0⟩ + 1) :=
  ⟨⟨by decide, by decide, by decide, by decide⟩,
    post_enqueue_terminal_accounting (initQueue 4)
      ⟨4, [3, 0, 0, 1], [0, 0, 0, 0], 1, [3, 0, 0, 0, 0], 0⟩ [0] [0]
      (by decide) (by decide) (by decide) (by decide)⟩

/-- Claim C3, counterexample: a fresh capacity-4 store, one enqueue of the
non-terminal batch `[0]` with reward `[7]`.  Retrieving the terminal field
at the batch's (only) target slot returns the sentinel `3`, not the
batch-supplied value `0`. -/
theorem round_trip_terminal_counterexample :
    (enqueue (initQueue 4) [0] [7]).map (fun q1 => retrieve q1 [0] [FieldName.terminal])
      = some [[3]] ∧
    (enqueue (initQueue 4) [0] [7]).map (fun q1 => retrieve q1 [0] [FieldName.terminal])
      ≠ some [[nth ([0] : List Int) 0 0]] :=
  ⟨by decide, by decide⟩

/-- Claim C3 (amended): after a successful valid enqueue, `retrieve` at any
target slot returns exactly the batch-supplied value for the reward column
(standing for every ordinary field) at every position and for the terminal
column at non-final positions; at the batch's final slot the terminal
column reads back the genuine terminal value when it is nonzero and the
sentinel `3` when the supplied value was `0`.  The values persist through a
later enqueue that does not overwrite the slot (the final slot's terminal
flag may additionally be rewritten by that call's sentinel undo). -/
theorem enqueue_retrieve_round_trip (q q' : Queue) (t r : List Int)
    (hcap : 0 < q.capacity) (hterm : q.terminal.length = q.capacity)
    (hrew : q.reward.length = q.capacity)
    (hv : validBatch q.capacity t r = true) (h : enqueue q t r = some q')
    (k : Nat) (hk : k < t.length) :
    retrieve q' [nth (targetSlots q.bufferIndex t.length q.capacity) k 0] [FieldName.reward]
      = [[nth r k 0]] ∧
    (k < t.length - 1 →
      retrieve q' [nth (targetSlots q.bufferIndex t.length q.capacity) k 0]
        [FieldName.terminal] = [[nth t k 0]]) ∧
    (k = t.length - 1 →
      retrieve q' [nth (targetSlots q.bufferIndex t.length q.capacity) k 0]
        [FieldName.terminal] = [[if lastD t 0 = 0 then 3 else lastD t 0]]) ∧
    (∀ t2 r2 q'', enqueue q' t2 r2 = some q'' →
      nth (targetSlots q.bufferIndex t.length q.capacity) k 0
          ∉ targetSlots q'.bufferIndex t2.length q'.capacity →
      retrieve q'' [nth (targetSlots q.bufferIndex t.length q.capacity) k 0]
          [FieldName.reward]
        = retrieve q' [nth (targetSlots q.bufferIndex t.length q.capacity) k 0]
            [FieldName.reward] ∧
      (nth (targetSlots q.bufferIndex t.length q.capacity) k 0
          ≠ prevSlot q'.capacity q'.bufferIndex →
        retrieve q'' [nth (targetSlots q.bufferIndex t.length q.capacity) k 0]
            [FieldName.terminal]
          = retrieve q' [nth (targetSlots q.bufferIndex t.length q.capacity) k 0]
              [FieldName.terminal])) := by
  rcases valid_facts hv with ⟨hne, hlen, hrl, _, _⟩
  have hpos : 0 < t.length := List.length_pos.mpr hne
  rcases (enqueue_eq_some q q' t r).mp h with ⟨_, hq'⟩
  refine ⟨?_, fun hk1 => ?_, fun hk1 => ?_, fun t2 r2 q'' h2 hnot => ⟨?_, fun hne2 => ?_⟩⟩
  · subst hq'
    simp only [retrieve, column, List.map_cons, List.map_nil]
    rw [enqueueCore_reward_nth q t r hcap hrew hlen hrl k hk]
  · subst hq'
    simp only [retrieve, column, List.map_cons, List.map_nil]
    rw [enqueueCore_terminal_nth q t r hcap hterm hne hlen k hk]
    rw [nth_append_left _ _ k 0 (by rw [List.length_dropLast]; omega),
      nth_dropLast t k 0 hk1]
  · have hacc := (enqueue_accounting q q' t r hcap hterm hv h).2.1
    rcases enqueue_accounting q q' t r hcap hterm hv h with ⟨_, _, hc, hbi, _⟩
    simp only [retrieve, column, List.map_cons, List.map_nil]
    have hslot : nth (targetSlots q.bufferIndex t.length q.capacity) k 0
        = prevSlot q'.capacity q'.bufferIndex := by
      rw [hc, hbi, nth_targetSlots _ _ _ _ hk, hk1]
      unfold prevSlot
      have he : q.bufferIndex + t.length + q.capacity - 1
          = q.bufferIndex + (t.length - 1) + q.capacity := by omega
      rw [he, Nat.add_mod_right]
    rw [hslot, hacc]
  · rcases (enqueue_eq_some q' q'' t2 r2).mp h2 with ⟨_, hq''⟩
    subst hq''
    simp only [retrieve, column, List.map_cons, List.map_nil]
    rw [enqueueCore_reward_nth_notMem q' t2 r2 _ hnot]
  · rcases (enqueue_eq_some q' q'' t2 r2).mp h2 with ⟨_, hq''⟩
    subst hq''
    simp only [retrieve, column, List.map_cons, List.map_nil]
    rw [enqueueCore_terminal_nth_notMem q' t2 r2 _ hnot,
      nth_undoSentinel_ne q' _ hne2]

/-- Witness for the amended C3: batch `[0,1]` with rewards `[5,7]` on a
fresh capacity-4 store, read back at the first target slot. -/
theorem enqueue_retrieve_round_trip_witness :
    (0 < (initQueue 4).capacity ∧
      validBatch (initQueue 4).capacity [0, 1] [5, 7] = true ∧
      enqueue (initQueue 4) [0, 1] [5, 7]
        = some ⟨4, [0, 1, 0, 1], [5, 7, 0, 0], 2, [3, 1, 0, 0, 0], 1⟩ ∧
      (0 : Nat) < ([0, 1] : List Int).length) ∧
    retrieve ⟨4, [0, 1, 0, 1], [5, 7, 0, 0], 2, [3, 1, 0, 0, 0], 1⟩
        [nth (targetSlots (initQueue 4).bufferIndex ([0, 1] : List Int).length
          (initQueue 4).capacity) 0 0] [FieldName.reward]
      = [[nth ([5, 7] : List Int) 0 0]] :=
  ⟨⟨by decide, by decide, by decide, by decide⟩,
    (enqueue_retrieve_round_trip (initQueue 4)
      ⟨4, [0, 1, 0, 1], [5, 7, 0, 0], 2, [3, 1, 0, 0, 0], 1⟩ [0, 1] [5, 7]
      (by decide) (by decide) (by decide) (by decide) (by decide) 0 (by decide)).1⟩

/-- Claim C5: the number of evicted episodes is the number of target slots
holding a nonzero terminal flag (the definition of `evictCount`, gathered
exactly as the source does); a successful enqueue decrements
`episode_count` by exactly that count (and then adds the batch's own new
episode count), shifts the surviving ring entries forward by that count,
and any call whose eviction count exceeds `episode_count + 1` fails.  The
Scenario C conjuncts run episodes `[0,1]` then `[0,0,1]` into a capacity-4
store and check that a third enqueue overwriting both resident boundary
slots has eviction count exactly 2 and drops both stale ring entries. -/
theorem enqueue_eviction_spec (q : Queue) (t r : List Int)
    (hcap : 0 < q.capacity) (hterm : q.terminal.length = q.capacity)
    (hring : q.terminalIndices.length = q.capacity + 1) :
    ((evictCount q t.length : Int) > q.episodeCount + 1 → enqueue q t r = none) ∧
    (∀ q', enqueue q t r = some q' →
      q'.episodeCount
        = q.episodeCount - (evictCount q t.length : Int) + (countNz t : Int) ∧
      ∀ j : Nat, (j : Int) < q.episodeCount + 1 - (evictCount q t.length : Int) →
        nth q'.terminalIndices j 0
          = nth q.terminalIndices (j + evictCount q t.length) 0) ∧
    (enqueue (initQueue 4) [0, 1] [0, 0]
        = some ⟨4, [0, 1, 0, 1], [0, 0, 0, 0], 2, [3, 1, 0, 0, 0], 1⟩ ∧
      enqueue ⟨4, [0, 1, 0, 1], [0, 0, 0, 0], 2, [3, 1, 0, 0, 0], 1⟩ [0, 0, 1] [0, 0, 0]
        = some ⟨4, [1, 1, 0, 0], [0, 0, 0, 0], 5, [1, 0, 0, 0, 0], 1⟩ ∧
      (Queue.terminalIndices ⟨4, [1, 1, 0, 0], [0, 0, 0, 0], 5, [1, 0, 0, 0, 0], 1⟩).take
        ((Queue.episodeCount ⟨4, [1, 1, 0, 0], [0, 0, 0, 0], 5, [1, 0, 0, 0, 0], 1⟩
          + 1).toNat) = [1, 0] ∧
      targetSlots 5 4 4 = [1, 2, 3, 0] ∧
      evictCount ⟨4, [1, 1, 0, 0], [0, 0, 0, 0], 5, [1, 0, 0, 0, 0], 1⟩ 4 = 2 ∧
      enqueue ⟨4, [1, 1, 0, 0], [0, 0, 0, 0], 5, [1, 0, 0, 0, 0], 1⟩ [0, 0, 0, 1]
        [0, 0, 0, 0] = some ⟨4, [1, 0, 0, 0], [0, 0, 0, 0], 9, [0, 0, 0, 0, 0], 0⟩ ∧
      Queue.episodeCount ⟨4, [1, 0, 0, 0], [0, 0, 0, 0], 9, [0, 0, 0, 0, 0], 0⟩
        = Queue.episodeCount ⟨4, [1, 1, 0, 0], [0, 0, 0, 0], 5, [1, 0, 0, 0, 0], 1⟩
          - 2 + 1 ∧
      (Queue.terminalIndices ⟨4, [1, 0, 0, 0], [0, 0, 0, 0], 9, [0, 0, 0, 0, 0], 0⟩).take
        ((Queue.episodeCount ⟨4, [1, 0, 0, 0], [0, 0, 0, 0], 9, [0, 0, 0, 0, 0], 0⟩
          + 1).toNat) = [0]) := by
  refine ⟨fun hgt => ?_, fun q' h => ⟨?_, fun j hj =>
    enqueue_ring_shift q q' t r hcap hterm hring h j hj⟩, by decide⟩
  · apply enqueue_none_of_guards
    unfold enqueueGuards
    rw [decide_eq_false (not_le.mpr hgt)]
    simp
  · rcases (enqueue_eq_some q q' t r).mp h with ⟨_, hq'⟩
    subst hq'
    exact enqueueCore_episodeCount q t r

/-- Witness for C5 at a fresh capacity-4 store with batch `[0,1]`. -/
theorem enqueue_eviction_spec_witness :
    (0 < (initQueue 4).capacity ∧
      (initQueue 4).terminal.length = (initQueue 4).capacity ∧
      (initQueue 4).terminalIndices.length = (initQueue 4).capacity + 1) ∧
    (((evictCount (initQueue 4) ([0, 1] : List Int).length : Int)
        > (initQueue 4).episodeCount + 1 → enqueue (initQueue 4) [0, 1] [0, 0] = none) ∧
     (∀ q', enqueue (initQueue 4) [0, 1] [0, 0] = some q' →
        q'.episodeCount = (initQueue 4).episodeCount
          - (evictCount (initQueue 4) ([0, 1] : List Int).length : Int)
          + (countNz [0, 1] : Int) ∧
        ∀ j : Nat, (j : Int) < (initQueue 4).episodeCount + 1
            - (evictCount (initQueue 4) ([0, 1] : List Int).length : Int) →
          nth q'.terminalIndices j 0
            = nth (initQueue 4).terminalIndices
                (j + evictCount (initQueue 4) ([0, 1] : List Int).length) 0) ∧
     (enqueue (initQueue 4) [0, 1] [0, 0]
        = some ⟨4, [0, 1, 0, 1], [0, 0, 0, 0], 2, [3, 1, 0, 0, 0], 1⟩ ∧
      enqueue ⟨4, [0, 1, 0, 1], [0, 0, 0, 0], 2, [3, 1, 0, 0, 0], 1⟩ [0, 0, 1] [0, 0, 0]
        = some ⟨4, [1, 1, 0, 0], [0, 0, 0, 0], 5, [1, 0, 0, 0, 0], 1⟩ ∧
      (Queue.terminalIndices ⟨4, [1, 1, 0, 0], [0, 0, 0, 0], 5, [1, 0, 0, 0, 0], 1⟩).take
        ((Queue.episodeCount ⟨4, [1, 1, 0, 0], [0, 0, 0, 0], 5, [1, 0, 0, 0, 0], 1⟩
          + 1).toNat) = [1, 0] ∧
      targetSlots 5 4 4 = [1, 2, 3, 0] ∧
      evictCount ⟨4, [1, 1, 0, 0], [0, 0, 0, 0], 5, [1, 0, 0, 0, 0], 1⟩ 4 = 2 ∧
      enqueue ⟨4, [1, 1, 0, 0], [0, 0, 0, 0], 5, [1, 0, 0, 0, 0], 1⟩ [0, 0, 0, 1]
        [0, 0, 0, 0] = some ⟨4, [1, 0, 0, 0], [0, 0, 0, 0], 9, [0, 0, 0, 0, 0], 0⟩ ∧
      Queue.episodeCount ⟨4, [1, 0, 0, 0], [0, 0, 0, 0], 9, [0, 0, 0, 0, 0], 0⟩
        = Queue.episodeCount ⟨4, [1, 1, 0, 0], [0, 0, 0, 0], 5, [1, 0, 0, 0, 0], 1⟩
          - 2 + 1 ∧
      (Queue.terminalIndices ⟨4, [1, 0, 0, 0], [0, 0, 0, 0], 9, [0, 0, 0, 0, 0], 0⟩).take
        ((Queue.episodeCount ⟨4, [1, 0, 0, 0], [0, 0, 0, 0], 9, [0, 0, 0, 0, 0], 0⟩
          + 1).toNat) = [0])) :=
  ⟨⟨by decide, by decide, by decide⟩,
    enqueue_eviction_spec (initQueue 4) [0, 1] [0, 0] (by decide) (by decide) (by decide)⟩

/-- Claim C8, counterexample: the empty batch satisfies all three stated
conditions (length within capacity, at most one nonzero terminal, no
nonzero entry before the last) yet `enqueue` fails, because the validation
itself reads `terminal[-1]`, which raises on an empty tensor.  Moreover,
outside the terminal input domain the stated failure direction is also
false: `[-1, 0]` has a nonzero entry that is not last, yet every
validation check passes (the checks compare `terminal > 0`, not
`terminal ≠ 0`). -/
theorem empty_batch_validation_counterexample :
    (([] : List Int).length ≤ 4 ∧ countNz [] ≤ 1 ∧
      (∀ x ∈ ([] : List Int).dropLast, x = 0)) ∧
    enqueue (initQueue 4) [] [] = none ∧ batchChecks 4 [] = false ∧
    (batchChecks 4 [-1, 0] = true ∧ nth ([-1, 0] : List Int) 0 0 ≠ 0 ∧
      (0 : Nat) < ([-1, 0] : List Int).length - 1) :=
  ⟨⟨by decide, by decide, by decide⟩, by decide, by decide, by decide, by decide, by decide⟩

/-- Claim C8 (amended): for non-empty batches whose terminal entries lie in
the input domain `{0,1,2}`, `enqueue` fails whenever the batch length
exceeds capacity, whenever the terminal column has more than one nonzero
entry, and whenever it has a nonzero entry that is not the last element;
and when all three conditions hold the validation checks pass. -/
theorem enqueue_validation (q : Queue) (t r : List Int)
    (hdom : ∀ x ∈ t, x = 0 ∨ x = 1 ∨ x = 2) (hne : t ≠ []) :
    (q.capacity < t.length → enqueue q t r = none) ∧
    (1 < countNz t → enqueue q t r = none) ∧
    ((∃ x ∈ t.dropLast, x ≠ 0) → enqueue q t r = none) ∧
    (t.length ≤ q.capacity → countNz t ≤ 1 → (∀ x ∈ t.dropLast, x = 0) →
      batchChecks q.capacity t = true) := by
  refine ⟨fun hgt => ?_, fun hgt => ?_, fun hex => ?_, fun h1 h2 h3 => ?_⟩
  · apply enqueue_none_of_guards
    unfold enqueueGuards batchChecks
    rw [decide_eq_false (by omega : ¬ t.length ≤ q.capacity)]
    simp
  · apply enqueue_none_of_guards
    unfold enqueueGuards batchChecks
    rw [decide_eq_false (by omega : ¬ countNz t ≤ 1)]
    simp
  · rcases hex with ⟨x, hx, hxne⟩
    have hxt : x ∈ t := (List.dropLast_sublist t).subset hx
    have hxpos : 0 < x := by rcases hdom x hxt with h | h | h <;> omega
    by_cases hl : 0 < lastD t 0
    · have ha : 1 ≤ countNz t.dropLast := countNz_pos _ x hx hxne
      have hb : countNz t = countNz t.dropLast + countNz [lastD t 0] := by
        conv_lhs => rw [← dropLast_append_lastD t 0 hne]
        rw [countNz_append]
      have hc : countNz [lastD t 0] = 1 := by
        rw [countNz_singleton, if_neg (by omega : ¬ lastD t 0 = 0)]
      apply enqueue_none_of_guards
      unfold enqueueGuards batchChecks
      rw [decide_eq_false (by omega : ¬ countNz t ≤ 1)]
      simp
    · have hany : (t.any fun x => decide (0 < x)) = true :=
        List.any_eq_true.mpr ⟨x, hxt, by simpa using hxpos⟩
      apply enqueue_none_of_guards
      unfold enqueueGuards batchChecks
      rw [hany, decide_eq_false hl]
      simp
  · unfold batchChecks
    rw [decide_eq_true h1, decide_eq_true h2, List.isEmpty_eq_false.mpr hne]
    have hany : (t.any fun x => decide (0 < x)) = decide (0 < lastD t 0) := by
      conv_lhs => rw [← dropLast_append_lastD t 0 hne]
      rw [List.any_append]
      have hdl : (t.dropLast.any fun x => decide (0 < x)) = false := by
        rw [List.any_eq_false]
        intro x hx
        simp [h3 x hx]
      rw [hdl]
      simp
    rw [hany]
    simp

/-- Witness for the amended C8: the valid batch `[0,1]` against a fresh
capacity-4 store. -/
theorem enqueue_validation_witness :
    ((∀ x ∈ ([0, 1] : List Int), x = 0 ∨ x = 1 ∨ x = 2) ∧ ([0, 1] : List Int) ≠ []) ∧
    (((initQueue 4).capacity < ([0, 1] : List Int).length →
        enqueue (initQueue 4) [0, 1] [0, 0] = none) ∧
     (1 < countNz [0, 1] → enqueue (initQueue 4) [0, 1] [0, 0] = none) ∧
     ((∃ x ∈ ([0, 1] : List Int).dropLast, x ≠ 0) →
        enqueue (initQueue 4) [0, 1] [0, 0] = none) ∧
     (([0, 1] : List Int).length ≤ (initQueue 4).capacity → countNz [0, 1] ≤ 1 →
        (∀ x ∈ ([0, 1] : List Int).dropLast, x = 0) →
        batchChecks (initQueue 4).capacity [0, 1] = true)) :=
  ⟨⟨by decide, by decide⟩,
    enqueue_validation (initQueue 4) [0, 1] [0, 0] (by decide) (by decide)⟩

/-- Claim C4: the per-call safety assertion of the walkers can never fire —
`mod(x, capacity)` of an int64 is always nonnegative under TF's floor-mod,
so the "Predecessor check" / "Successor check" is vacuous.  Concretely,
after a single write to slot 0 of a fresh capacity-4 store, walking back
and forward from the never-written slot 2 runs through the stale slots
`[1,2]` / `[2,3]`, both checks evaluate to `true`, and both calls return
normally instead of failing with a `ConsistencyFault`. -/
theorem predecessor_check_vacuous :
    enqueue (initQueue 4) [0] [5]
      = some ⟨4, [3, 0, 0, 1], [5, 0, 0, 0], 1, [3, 0, 0, 0, 0], 0⟩ ∧
    predecessors ⟨4, [3, 0, 0, 1], [5, 0, 0, 0], 1, [3, 0, 0, 0, 0], 0⟩ [2] 3
        (some [FieldName.reward]) (some [])
      = .ok ⟨[0], [2], [1, 2], [[0, 0]], []⟩ ∧
    successors ⟨4, [3, 0, 0, 1], [5, 0, 0, 0], 1, [3, 0, 0, 0, 0], 0⟩ [2] 3
        (some [FieldName.reward]) (some [])
      = .ok ⟨[0], [2], [2, 3], [[0, 0]], []⟩ ∧
    predCheck ⟨4, [3, 0, 0, 1], [5, 0, 0, 0], 1, [3, 0, 0, 0, 0], 0⟩ [1, 2] = true ∧
    succCheck ⟨4, [3, 0, 0, 1], [5, 0, 0, 0], 1, [3, 0, 0, 0, 0], 0⟩ [2, 3] = true :=
  ⟨by decide, rfl, rfl, by decide, by decide⟩

/-- Claim C9: the `None`-replacement for the second field list assigns to a
misspelled variable in the source, so every call leaving that list unset
reaches `list(None)` and raises a `TypeError` — including calls whose
sequence list is non-empty — instead of the intended `InvalidArgument`;
only the combinations passing the second list explicitly as an empty tuple
produce `InvalidArgument`. -/
theorem field_list_typo_typeError :
    predecessors (initQueue 4) [0] 1 (some []) none = .error .typeError ∧
    predecessors (initQueue 4) [0] 1 (some [FieldName.reward]) none = .error .typeError ∧
    successors (initQueue 4) [0] 1 (some []) none = .error .typeError ∧
    successors (initQueue 4) [0] 1 (some [FieldName.reward]) none = .error .typeError ∧
    predecessors (initQueue 4) [0] 1 none (some []) = .error .invalidArgument ∧
    predecessors (initQueue 4) [0] 1 (some []) (some []) = .error .invalidArgument ∧
    successors (initQueue 4) [0] 1 none (some []) = .error .invalidArgument :=
  ⟨rfl, rfl, rfl, rfl, rfl, rfl, rfl⟩

/-- Claim C6: every per-query walk length lies in `[1, horizon+1]`, and the
length is exactly one more than the number of steps allowed by the spec's
stopping rule — backward walks stop when the slot immediately before the
current position holds a nonzero terminal flag, forward walks when the
current slot itself does (`specPredSteps` / `specSuccSteps` are these rules
verbatim). -/
theorem walk_length_spec (q : Queue) (start horizon : Nat) (_hs : start < q.capacity) :
    (1 ≤ (predWalk q.terminal q.capacity horizon start).len ∧
     (predWalk q.terminal q.capacity horizon start).len ≤ horizon + 1 ∧
     (predWalk q.terminal q.capacity horizon start).len
       = 1 + specPredSteps q.terminal q.capacity horizon start) ∧
    (1 ≤ (succWalk q.terminal q.capacity horizon start).len ∧
     (succWalk q.terminal q.capacity horizon start).len ≤ horizon + 1 ∧
     (succWalk q.terminal q.capacity horizon start).len
       = 1 + specSuccSteps q.terminal q.capacity horizon start) := by
  have hp := predWalk_len q.terminal q.capacity horizon start
  have hq := succWalk_len q.terminal q.capacity horizon start
  have hb1 := specPredSteps_le q.terminal q.capacity horizon start
  have hb2 := specSuccSteps_le q.terminal q.capacity horizon start
  exact ⟨⟨by omega, by omega, hp⟩, ⟨by omega, by omega, hq⟩⟩

/-- Witness for C6: both walks from slot 2 with horizon 2 after one
completed episode in a capacity-4 store. -/
theorem walk_length_spec_witness :
    (2 : Nat) < Queue.capacity ⟨4, [0, 1, 0, 1], [0, 0, 0, 0], 2, [3, 1, 0, 0, 0], 1⟩ ∧
    ((1 ≤ (predWalk (Queue.terminal ⟨4, [0, 1, 0, 1], [0, 0, 0, 0], 2, [3, 1, 0, 0, 0], 1⟩)
        (Queue.capacity ⟨4, [0, 1, 0, 1], [0, 0, 0, 0], 2, [3, 1, 0, 0, 0], 1⟩) 2 2).len ∧
      (predWalk (Queue.terminal ⟨4, [0, 1, 0, 1], [0, 0, 0, 0], 2, [3, 1, 0, 0, 0], 1⟩)
        (Queue.capacity ⟨4, [0, 1, 0, 1], [0, 0, 0, 0], 2, [3, 1, 0, 0, 0], 1⟩) 2 2).len
        ≤ 2 + 1 ∧
      (predWalk (Queue.terminal ⟨4, [0, 1, 0, 1], [0, 0, 0, 0], 2, [3, 1, 0, 0, 0], 1⟩)
        (Queue.capacity ⟨4, [0, 1, 0, 1], [0, 0, 0, 0], 2, [3, 1, 0, 0, 0], 1⟩) 2 2).len
        = 1 + specPredSteps
            (Queue.terminal ⟨4, [0, 1, 0, 1], [0, 0, 0, 0], 2, [3, 1, 0, 0, 0], 1⟩)
            (Queue.capacity ⟨4, [0, 1, 0, 1], [0, 0, 0, 0], 2, [3, 1, 0, 0, 0], 1⟩) 2 2) ∧
     (1 ≤ (succWalk (Queue.terminal ⟨4, [0, 1, 0, 1], [0, 0, 0, 0], 2, [3, 1, 0, 0, 0], 1⟩)
        (Queue.capacity ⟨4, [0, 1, 0, 1], [0, 0, 0, 0], 2, [3, 1, 0, 0, 0], 1⟩) 2 2).len ∧
      (succWalk (Queue.terminal ⟨4, [0, 1, 0, 1], [0, 0, 0, 0], 2, [3, 1, 0, 0, 0], 1⟩)
        (Queue.capacity ⟨4, [0, 1, 0, 1], [0, 0, 0, 0], 2, [3, 1, 0, 0, 0], 1⟩) 2 2).len
        ≤ 2 + 1 ∧
      (succWalk (Queue.terminal ⟨4, [0, 1, 0, 1], [0, 0, 0, 0], 2, [3, 1, 0, 0, 0], 1⟩)
        (Queue.capacity ⟨4, [0, 1, 0, 1], [0, 0, 0, 0], 2, [3, 1, 0, 0, 0], 1⟩) 2 2).len
        = 1 + specSuccSteps
            (Queue.terminal ⟨4, [0, 1, 0, 1], [0, 0, 0, 0], 2, [3, 1, 0, 0, 0], 1⟩)
            (Queue.capacity ⟨4, [0, 1, 0, 1], [0, 0, 0, 0], 2, [3, 1, 0, 0, 0], 1⟩) 2 2)) :=
  ⟨by decide,
    walk_length_spec ⟨4, [0, 1, 0, 1], [0, 0, 0, 0], 2, [3, 1, 0, 0, 0], 1⟩ 2 2 (by decide)⟩

end Tensorforce
